import Mathlib

/-!
Verification of the `snapshotter` package (src/snapshotter/snapshotter.go),
a snapshot-testing utility: `Snapshot` captures named value lists after a
JSON round trip, `Verify` either rewrites a golden file under `testdata/`
or compares the captured set against it, reporting failures through the
test collaborator `T`.

Shallow embedding conventions:
 - Go `interface{}` values captured by tests are modelled by `GoValue`
   (JSON-serializable shapes plus `funcV`, a stand-in for any value that
   `json.Marshal` rejects, such as a func or channel).  JSON numbers are
   modelled by integers; floating-point precision is outside the claims.
 - `json.Marshal` followed by `json.Unmarshal` into `interface{}` is
   modelled by `toJson`/`ofJson` over the `Json` tree.  `Marshal` sorts
   map keys, modelled by `sortPairs`.
 - The test collaborator's `Errorf` calls are accumulated as `Report`
   values in the `Snapshotter` state; `t.Name()` is the `tName` field.
 - The filesystem is a path-indexed store of parsed file contents with
   explicit fault-injection lists for the fallible OS calls.
 - The external libraries godebug/pretty and go-difflib are not part of
   the repository; their composite behaviour in `diffString` is modelled
   from the spec's diff-engine contract (empty result exactly on equal
   renderings, a non-empty unified-diff text otherwise).
-/

/-- A parsed JSON document, the canonical interchange form produced by
`json.Unmarshal` into `interface{}` (numbers modelled by integers). -/
inductive Json where
  | null
  | bool (b : Bool)
  | num (n : Int)
  | str (s : String)
  | arr (elems : List Json)
  | obj (fields : List (String × Json))

/-- Induction principle for `Json` with membership hypotheses for the
nested lists. -/
theorem jsonMemInd {P : Json → Prop}
    (h1 : P .null) (h2 : ∀ b, P (.bool b)) (h3 : ∀ n, P (.num n))
    (h4 : ∀ s, P (.str s))
    (h5 : ∀ es, (∀ e ∈ es, P e) → P (.arr es))
    (h6 : ∀ fs, (∀ p ∈ fs, P p.2) → P (.obj fs)) :
    ∀ j, P j
  | .null => h1
  | .bool b => h2 b
  | .num n => h3 n
  | .str s => h4 s
  | .arr es => h5 es (fun e he => jsonMemInd h1 h2 h3 h4 h5 h6 e)
  | .obj fs => h6 fs (fun p hp => jsonMemInd h1 h2 h3 h4 h5 h6 p.2)
termination_by j => sizeOf j
decreasing_by
  · have := List.sizeOf_lt_of_mem he
    simp only [Json.arr.sizeOf_spec]
    omega
  · have := List.sizeOf_lt_of_mem hp
    obtain ⟨k, v⟩ := p
    simp only [Json.obj.sizeOf_spec, Prod.mk.sizeOf_spec] at this ⊢
    omega

mutual

/-- Boolean equality on `Json` (hand-rolled because `deriving` does not
handle the nested lists). -/
def jbeq : Json → Json → Bool
  | .null, .null => true
  | .bool a, .bool b => a == b
  | .num a, .num b => a == b
  | .str a, .str b => a == b
  | .arr a, .arr b => jbeqList a b
  | .obj a, .obj b => jbeqObj a b
  | _, _ => false

/-- Boolean equality on lists of `Json`. -/
def jbeqList : List Json → List Json → Bool
  | [], [] => true
  | a :: as, b :: bs => jbeq a b && jbeqList as bs
  | _, _ => false

/-- Boolean equality on `Json` object field lists. -/
def jbeqObj : List (String × Json) → List (String × Json) → Bool
  | [], [] => true
  | (k, a) :: as, (l, b) :: bs => k == l && jbeq a b && jbeqObj as bs
  | _, _ => false

end

theorem jbeq_iff : ∀ a b : Json, jbeq a b = true ↔ a = b := by
  intro a
  induction a using jsonMemInd with
  | h1 => intro b; cases b <;> simp [jbeq]
  | h2 x => intro b; cases b <;> simp [jbeq]
  | h3 x => intro b; cases b <;> simp [jbeq]
  | h4 x => intro b; cases b <;> simp [jbeq]
  | h5 es ih =>
    intro b
    cases b <;> simp only [jbeq, Json.arr.injEq] <;> try simp
    case arr bs =>
      induction es generalizing bs with
      | nil => cases bs <;> simp [jbeqList]
      | cons e es ih2 =>
        cases bs with
        | nil => simp [jbeqList]
        | cons b bs =>
          simp only [jbeqList, Bool.and_eq_true, List.cons.injEq]
          rw [ih e (by simp), ih2 (fun x hx => ih x (by simp [hx])) bs]
  | h6 fs ih =>
    intro b
    cases b <;> simp only [jbeq, Json.obj.injEq] <;> try simp
    case obj bs =>
      induction fs generalizing bs with
      | nil => cases bs <;> simp [jbeqObj]
      | cons p ps ih2 =>
        cases bs with
        | nil => simp [jbeqObj]
        | cons q qs =>
          obtain ⟨k, v⟩ := p
          obtain ⟨l, w⟩ := q
          simp only [jbeqObj, Bool.and_eq_true, List.cons.injEq, Prod.mk.injEq,
            beq_iff_eq]
          rw [ih ⟨k, v⟩ (by simp), ih2 (fun x hx => ih x (by simp [hx])) qs]

instance : DecidableEq Json := fun a b => decidable_of_iff _ (jbeq_iff a b)

/-- A dynamically-typed Go value (`interface{}`) as captured by a test.
`funcV` stands for any value `json.Marshal` rejects. -/
inductive GoValue where
  | nullV
  | boolV (b : Bool)
  | numV (n : Int)
  | strV (s : String)
  | arrV (elems : List GoValue)
  | mapV (fields : List (String × GoValue))
  | funcV

/-- Induction principle for `GoValue` with membership hypotheses for the
nested lists. -/
theorem goValueMemInd {P : GoValue → Prop}
    (h1 : P .nullV) (h2 : ∀ b, P (.boolV b)) (h3 : ∀ n, P (.numV n))
    (h4 : ∀ s, P (.strV s)) (h7 : P .funcV)
    (h5 : ∀ es, (∀ e ∈ es, P e) → P (.arrV es))
    (h6 : ∀ fs, (∀ p ∈ fs, P p.2) → P (.mapV fs)) :
    ∀ v, P v
  | .nullV => h1
  | .boolV b => h2 b
  | .numV n => h3 n
  | .strV s => h4 s
  | .funcV => h7
  | .arrV es => h5 es (fun e he => goValueMemInd h1 h2 h3 h4 h7 h5 h6 e)
  | .mapV fs => h6 fs (fun p hp => goValueMemInd h1 h2 h3 h4 h7 h5 h6 p.2)
termination_by v => sizeOf v
decreasing_by
  · have := List.sizeOf_lt_of_mem he
    simp only [GoValue.arrV.sizeOf_spec]
    omega
  · have := List.sizeOf_lt_of_mem hp
    obtain ⟨k, v⟩ := p
    simp only [GoValue.mapV.sizeOf_spec, Prod.mk.sizeOf_spec] at this ⊢
    omega

mutual

/-- Boolean equality on `GoValue`. -/
def gbeq : GoValue → GoValue → Bool
  | .nullV, .nullV => true
  | .boolV a, .boolV b => a == b
  | .numV a, .numV b => a == b
  | .strV a, .strV b => a == b
  | .arrV a, .arrV b => gbeqList a b
  | .mapV a, .mapV b => gbeqObj a b
  | .funcV, .funcV => true
  | _, _ => false

/-- Boolean equality on lists of `GoValue`. -/
def gbeqList : List GoValue → List GoValue → Bool
  | [], [] => true
  | a :: as, b :: bs => gbeq a b && gbeqList as bs
  | _, _ => false

/-- Boolean equality on `GoValue` map field lists. -/
def gbeqObj : List (String × GoValue) → List (String × GoValue) → Bool
  | [], [] => true
  | (k, a) :: as, (l, b) :: bs => k == l && gbeq a b && gbeqObj as bs
  | _, _ => false

end

theorem gbeq_iff : ∀ a b : GoValue, gbeq a b = true ↔ a = b := by
  intro a
  induction a using goValueMemInd with
  | h1 => intro b; cases b <;> simp [gbeq]
  | h2 x => intro b; cases b <;> simp [gbeq]
  | h3 x => intro b; cases b <;> simp [gbeq]
  | h4 x => intro b; cases b <;> simp [gbeq]
  | h7 => intro b; cases b <;> simp [gbeq]
  | h5 es ih =>
    intro b
    cases b <;> simp only [gbeq, GoValue.arrV.injEq] <;> try simp
    case arrV bs =>
      induction es generalizing bs with
      | nil => cases bs <;> simp [gbeqList]
      | cons e es ih2 =>
        cases bs with
        | nil => simp [gbeqList]
        | cons b bs =>
          simp only [gbeqList, Bool.and_eq_true, List.cons.injEq]
          rw [ih e (by simp), ih2 (fun x hx => ih x (by simp [hx])) bs]
  | h6 fs ih =>
    intro b
    cases b <;> simp only [gbeq, GoValue.mapV.injEq] <;> try simp
    case mapV bs =>
      induction fs generalizing bs with
      | nil => cases bs <;> simp [gbeqObj]
      | cons p ps ih2 =>
        cases bs with
        | nil => simp [gbeqObj]
        | cons q qs =>
          obtain ⟨k, v⟩ := p
          obtain ⟨l, w⟩ := q
          simp only [gbeqObj, Bool.and_eq_true, List.cons.injEq, Prod.mk.injEq,
            beq_iff_eq]
          rw [ih ⟨k, v⟩ (by simp), ih2 (fun x hx => ih x (by simp [hx])) qs]

instance : DecidableEq GoValue := fun a b => decidable_of_iff _ (gbeq_iff a b)

/-- Lexicographic "less than" on character lists, the order in which
`sort.Strings` arranges Go map keys inside `encoding/json` (compared here
through the characters' numeric values). -/
def charListLt : List Char → List Char → Bool
  | [], [] => false
  | [], _ :: _ => true
  | _ :: _, [] => false
  | a :: as, b :: bs =>
    if a.toNat < b.toNat then true
    else if b.toNat < a.toNat then false
    else charListLt as bs

/-- Lexicographic "less than" on map keys. -/
def keyLt (a b : String) : Bool := charListLt a.data b.data

theorem charListLt_asymm : ∀ (a b : List Char),
    charListLt a b = true → charListLt b a = false := by
  intro a
  induction a with
  | nil => intro b h; cases b <;> simp [charListLt]
  | cons x xs ih =>
    intro b h
    cases b with
    | nil => simp [charListLt] at h
    | cons y ys =>
      simp only [charListLt] at h ⊢
      by_cases h1 : x.toNat < y.toNat
      · have h2 : ¬ y.toNat < x.toNat := by omega
        simp [h1, h2]
      · by_cases h2 : y.toNat < x.toNat
        · simp [h1, h2] at h
        · simp only [if_neg h1, if_neg h2] at h
          simp only [if_neg h2, if_neg h1]
          exact ih ys h

theorem charListLt_trans_false : ∀ (r q p : List Char),
    charListLt q p = false → charListLt r q = false →
    charListLt r p = false := by
  intro r
  induction r with
  | nil =>
    intro q p h1 h2
    cases q with
    | nil =>
      cases p with
      | nil => rfl
      | cons z zs => simp [charListLt] at h1
    | cons y ys => simp [charListLt] at h2
  | cons z zs ih =>
    intro q p h1 h2
    cases q with
    | nil =>
      cases p with
      | nil => rfl
      | cons x xs => simp [charListLt] at h1
    | cons y ys =>
      cases p with
      | nil => rfl
      | cons x xs =>
        simp only [charListLt] at h1 h2 ⊢
        by_cases hyx : y.toNat < x.toNat
        · simp [hyx] at h1
        · by_cases hzy : z.toNat < y.toNat
          · simp [hzy] at h2
          · by_cases hxy : x.toNat < y.toNat
            · have hzx : ¬ z.toNat < x.toNat := by omega
              have hxz : x.toNat < z.toNat := by omega
              simp [hzx, hxz]
            · by_cases hyz : y.toNat < z.toNat
              · have hzx : ¬ z.toNat < x.toNat := by omega
                have hxz : x.toNat < z.toNat := by omega
                simp [hzx, hxz]
              · have hzx : ¬ z.toNat < x.toNat := by omega
                have hxz : ¬ x.toNat < z.toNat := by omega
                simp only [if_neg hyx, if_neg hxy] at h1
                simp only [if_neg hzy, if_neg hyz] at h2
                simp only [if_neg hzx, if_neg hxz]
                exact ih ys xs h1 h2

/-- Insert a key/value pair into an object field list ordered by key:
the pair goes after every strictly smaller key (stable insertion). -/
def insertPair (p : String × Json) : List (String × Json) → List (String × Json)
  | [] => [p]
  | q :: qs => if keyLt q.1 p.1 then q :: insertPair p qs else p :: q :: qs

/-- Sort an object field list by key, as `encoding/json.Marshal` sorts
the keys of a Go map before writing it. -/
def sortPairs : List (String × Json) → List (String × Json)
  | [] => []
  | p :: ps => insertPair p (sortPairs ps)

/-- Keys of an object field list are in nondecreasing order. -/
def KeysSorted (l : List (String × Json)) : Prop :=
  List.Sorted (fun p q : String × Json => keyLt q.1 p.1 = false) l

theorem mem_insertPair {q p : String × Json} {l : List (String × Json)} :
    q ∈ insertPair p l ↔ q = p ∨ q ∈ l := by
  induction l with
  | nil => simp [insertPair]
  | cons r rs ih =>
    simp only [insertPair]
    split
    · simp only [List.mem_cons, ih]
      tauto
    · simp

theorem mem_sortPairs {q : String × Json} {l : List (String × Json)} :
    q ∈ sortPairs l ↔ q ∈ l := by
  induction l with
  | nil => simp [sortPairs]
  | cons p ps ih => simp [sortPairs, mem_insertPair, ih]

theorem keysSorted_insertPair {p : String × Json} {l : List (String × Json)}
    (h : KeysSorted l) : KeysSorted (insertPair p l) := by
  induction l with
  | nil => simp [insertPair, KeysSorted]
  | cons q qs ih =>
    have hq := (List.sorted_cons.mp h).1
    have hqs := (List.sorted_cons.mp h).2
    simp only [insertPair]
    split
    · rename_i hlt
      refine List.sorted_cons.mpr ⟨?_, ih hqs⟩
      intro r hr
      rcases mem_insertPair.mp hr with rfl | hr
      · exact charListLt_asymm _ _ hlt
      · exact hq r hr
    · rename_i hnlt
      have hqp : keyLt q.1 p.1 = false := Bool.eq_false_iff.mpr hnlt
      refine List.sorted_cons.mpr ⟨?_, h⟩
      intro r hr
      rcases List.mem_cons.mp hr with rfl | hr
      · exact hqp
      · exact charListLt_trans_false _ _ _ hqp (hq r hr)

theorem keysSorted_sortPairs (l : List (String × Json)) :
    KeysSorted (sortPairs l) := by
  induction l with
  | nil => simp [sortPairs, KeysSorted]
  | cons p ps ih => exact keysSorted_insertPair ih

theorem sortPairs_of_keysSorted {l : List (String × Json)}
    (h : KeysSorted l) : sortPairs l = l := by
  induction l with
  | nil => rfl
  | cons p ps ih =>
    have hp := (List.sorted_cons.mp h).1
    have hps := (List.sorted_cons.mp h).2
    simp only [sortPairs, ih hps]
    cases ps with
    | nil => rfl
    | cons q qs =>
      simp [insertPair, hp q (by simp)]

theorem sortPairs_idem (l : List (String × Json)) :
    sortPairs (sortPairs l) = sortPairs l :=
  sortPairs_of_keysSorted (keysSorted_sortPairs l)

mutual

/-- Model of `json.Marshal` on a captured Go value, returned as the parse
tree of the bytes it would produce (`none` models a marshal error).  Map
keys are sorted, as `encoding/json` does for Go maps. -/
def toJson : GoValue → Option Json
  | .nullV => some .null
  | .boolV b => some (.bool b)
  | .numV n => some (.num n)
  | .strV s => some (.str s)
  | .funcV => none
  | .arrV vs => (toJsonList vs).map Json.arr
  | .mapV kvs => (toJsonObj kvs).map (fun l => Json.obj (sortPairs l))

/-- `toJson` over the elements of a slice; fails if any element fails. -/
def toJsonList : List GoValue → Option (List Json)
  | [] => some []
  | v :: vs =>
    match toJson v, toJsonList vs with
    | some j, some js => some (j :: js)
    | _, _ => none

/-- `toJson` over the values of a map's entries; fails if any fails. -/
def toJsonObj : List (String × GoValue) → Option (List (String × Json))
  | [] => some []
  | (k, v) :: kvs =>
    match toJson v, toJsonObj kvs with
    | some j, some js => some ((k, j) :: js)
    | _, _ => none

end

mutual

/-- Model of `json.Unmarshal` of a JSON document into `interface{}`:
null, bool, number, string, `[]interface{}`, `map[string]interface{}`. -/
def ofJson : Json → GoValue
  | .null => .nullV
  | .bool b => .boolV b
  | .num n => .numV n
  | .str s => .strV s
  | .arr js => .arrV (ofJsonList js)
  | .obj fs => .mapV (ofJsonObj fs)

/-- `ofJson` over the elements of a JSON array. -/
def ofJsonList : List Json → List GoValue
  | [] => []
  | j :: js => ofJson j :: ofJsonList js

/-- `ofJson` over the fields of a JSON object. -/
def ofJsonObj : List (String × Json) → List (String × GoValue)
  | [] => []
  | (k, j) :: fs => (k, ofJson j) :: ofJsonObj fs

end

/-- Model of `jsonRoundTrip` (snapshotter.go lines 23–33): marshal the
value and unmarshal the bytes back into `interface{}`. -/
def jsonRoundTrip (v : GoValue) : Option GoValue :=
  (toJson v).map ofJson

theorem toJsonList_ofJsonList (vs : List GoValue) (js : List Json)
    (ih : ∀ v ∈ vs, ∀ j, toJson v = some j → toJson (ofJson j) = some j)
    (h : toJsonList vs = some js) : toJsonList (ofJsonList js) = some js := by
  induction vs generalizing js with
  | nil =>
    simp only [toJsonList] at h
    cases h
    rfl
  | cons v vs ih2 =>
    simp only [toJsonList] at h
    cases hv : toJson v with
    | none => simp [hv] at h
    | some j0 =>
      cases hvs : toJsonList vs with
      | none => simp [hv, hvs] at h
      | some js0 =>
        simp only [hv, hvs] at h
        cases h
        have e1 : toJson (ofJson j0) = some j0 := ih v (by simp) j0 hv
        have e2 : toJsonList (ofJsonList js0) = some js0 :=
          ih2 js0 (fun x hx => ih x (List.mem_cons_of_mem v hx)) hvs
        simp [ofJsonList, toJsonList, e1, e2]

theorem toJsonObj_ofJsonObj (m : List (String × Json))
    (hm : ∀ p ∈ m, toJson (ofJson p.2) = some p.2) :
    toJsonObj (ofJsonObj m) = some m := by
  induction m with
  | nil => rfl
  | cons p ps ih =>
    obtain ⟨k, j⟩ := p
    have e1 : toJson (ofJson j) = some j := hm ⟨k, j⟩ (by simp)
    have e2 : toJsonObj (ofJsonObj ps) = some ps :=
      ih (fun x hx => hm x (by simp [hx]))
    simp [ofJsonObj, toJsonObj, e1, e2]

theorem toJsonObj_mem (kvs : List (String × GoValue)) (l : List (String × Json))
    (h : toJsonObj kvs = some l) :
    ∀ p ∈ l, ∃ v, (p.1, v) ∈ kvs ∧ toJson v = some p.2 := by
  induction kvs generalizing l with
  | nil =>
    simp only [toJsonObj] at h
    cases h
    simp
  | cons q qs ih =>
    obtain ⟨k, v⟩ := q
    simp only [toJsonObj] at h
    cases hv : toJson v with
    | none => simp [hv] at h
    | some j0 =>
      cases hqs : toJsonObj qs with
      | none => simp [hv, hqs] at h
      | some js0 =>
        simp only [hv, hqs] at h
        cases h
        intro p hp
        rcases List.mem_cons.mp hp with rfl | hp
        · exact ⟨v, by simp, hv⟩
        · rcases ih js0 hqs p hp with ⟨w, hw1, hw2⟩
          exact ⟨w, by simp [hw1], hw2⟩

/-- Core of round-trip idempotence: marshalling the unmarshalled form of
a marshalled value reproduces the same document. -/
theorem toJson_ofJson : ∀ v : GoValue, ∀ j, toJson v = some j →
    toJson (ofJson j) = some j := by
  intro v
  induction v using goValueMemInd with
  | h1 => intro j h; cases h; rfl
  | h2 b => intro j h; cases h; rfl
  | h3 n => intro j h; cases h; rfl
  | h4 s => intro j h; cases h; rfl
  | h7 => intro j h; simp [toJson] at h
  | h5 es ih =>
    intro j h
    simp only [toJson] at h
    cases hl : toJsonList es with
    | none => simp [hl] at h
    | some js =>
      simp only [hl, Option.map_some'] at h
      cases h
      have := toJsonList_ofJsonList es js ih hl
      simp [ofJson, toJson, this]
  | h6 fs ih =>
    intro j h
    simp only [toJson] at h
    cases hl : toJsonObj fs with
    | none => simp [hl] at h
    | some l =>
      simp only [hl, Option.map_some'] at h
      cases h
      have hmem : ∀ p ∈ sortPairs l, toJson (ofJson p.2) = some p.2 := by
        intro p hp
        have hpl : p ∈ l := mem_sortPairs.mp hp
        rcases toJsonObj_mem fs l hl p hpl with ⟨w, hw1, hw2⟩
        exact ih ⟨p.1, w⟩ hw1 p.2 hw2
      have := toJsonObj_ofJsonObj (sortPairs l) hmem
      simp [ofJson, toJson, this,
        sortPairs_of_keysSorted (keysSorted_sortPairs l)]

/-- A value is normal when the JSON round trip fixes it. -/
def NormalVal (v : GoValue) : Prop := jsonRoundTrip v = some v

theorem normal_of_roundTrip {v w : GoValue} (h : jsonRoundTrip v = some w) :
    NormalVal w := by
  unfold NormalVal
  unfold jsonRoundTrip at h ⊢
  cases hv : toJson v with
  | none => simp [hv] at h
  | some j =>
    simp only [hv, Option.map_some'] at h
    cases h
    simp [toJson_ofJson v j hv]

theorem normal_elim {w : GoValue} {j : Json} (hn : NormalVal w)
    (h : toJson w = some j) : ofJson j = w := by
  unfold NormalVal jsonRoundTrip at hn
  rw [h] at hn
  simpa using hn

/-- One captured snapshot entry (the Go `snapshot` struct): a name and the
ordered list of values recorded together in one `Snapshot` call. -/
structure Snapshot where
  Name : String
  Values : List GoValue
deriving DecidableEq

/-- One failure message delivered through `t.Errorf`.  Constructors carry
the data the corresponding format string interpolates. -/
inductive Report where
  | roundtripError (entry : String) (value : GoValue)
  | removeFailed (path : String)
  | mkdirError
  | marshalError
  | writeError
  | readError (path : String)
  | unmarshalError
  | namesDiffer (diff : String)
  | snapshotDiffers (entry : String) (diff : String)
  | rewriteHint
deriving DecidableEq

/-- The `Snapshotter` state together with its test collaborator: `tName`
is `t.Name()`, `name` the optional discriminator from `NewNamed`,
`snapshots` the captured entries, and `reports` the `t.Errorf` calls made
so far (in order). -/
structure Snapshotter where
  tName : String
  name : String
  snapshots : List Snapshot
  reports : List Report
deriving DecidableEq

/-- Append one `t.Errorf` report. -/
def Snapshotter.addReport (s : Snapshotter) (r : Report) : Snapshotter :=
  { s with reports := s.reports ++ [r] }

/-- Append a batch of `t.Errorf` reports in order. -/
def Snapshotter.addReports (s : Snapshotter) (rs : List Report) : Snapshotter :=
  { s with reports := s.reports ++ rs }

/-- The filesystem collaborator: `files` maps a path to the parse tree of
the file's contents (the golden files the component reads and writes are
JSON).  The `Fail` fields inject faults into the corresponding OS calls:
`os.Remove`, `ioutil.ReadFile`, `ioutil.WriteFile`, `os.MkdirAll`. -/
structure FS where
  files : List (String × Json)
  removeFail : List String
  readFail : List String
  writeFail : List String
  mkdirFail : Bool
deriving DecidableEq

/-- Contents at a path, `none` when no file exists (`os.Stat` reports
`IsNotExist` exactly when this is `none`). -/
def FS.read (fs : FS) (p : String) : Option Json :=
  fs.files.lookup p

/-- `ioutil.WriteFile`: create or overwrite the file at `p`. -/
def FS.write (fs : FS) (p : String) (j : Json) : FS :=
  { fs with files := (p, j) :: fs.files }

/-- `os.Remove`: delete the file at `p`. -/
def FS.remove (fs : FS) (p : String) : FS :=
  { fs with files := fs.files.filter (fun q => q.1 != p) }

/-- `ioutil.ReadFile`: fails (`none`) when the file is absent or a read
fault is injected at `p`. -/
def FS.readFile (fs : FS) (p : String) : Option Json :=
  if p ∈ fs.readFail then none else fs.read p

/-- Replace every occurrence of the character `c` by `r`; the effect of
`strings.Replace(s, c, r, -1)` for a single-character pattern. -/
def replaceCharList (c r : Char) : List Char → List Char
  | [] => []
  | x :: xs => (if x = c then r else x) :: replaceCharList c r xs

/-- String-level wrapper for `replaceCharList`. -/
def replaceChar (c r : Char) (s : String) : String :=
  ⟨replaceCharList c r s.data⟩

/-- The sanitization applied to the test identifier and the discriminator
(snapshotter.go lines 86–88): replace all `/`, then all `:`, by `-`. -/
def sanitize (s : String) : String :=
  replaceChar ':' '-' (replaceChar '/' '-' s)

/-- The golden-file path computed at the start of `Verify` (lines 84–88):
`filepath.Join("testdata", base)` is plain concatenation here because the
base name is nonempty and, being sanitized, contains no separator. -/
def goldenName (tName disc : String) : String :=
  let nameSuffix := if disc = "" then "" else "_" ++ sanitize disc
  "testdata" ++ "/" ++ (sanitize tName ++ nameSuffix ++ ".snapshots.json")

/-- The three shapes of argument the source passes to `diffString`: two
raw strings, two name slices, two `Values` slices. -/
inductive DiffInput where
  | strI (s : String)
  | strList (l : List String)
  | valList (l : List GoValue)
deriving DecidableEq

/-- The non-empty text standing for any unified-diff output. -/
def diffMark : String := "--- expected - +++ received"

/-- Modelled from the spec: `diffString` (snapshotter.go lines 179–189)
renders both sides — a string as its raw lines, anything else through the
external structure-aware pretty-printer godebug/pretty — and returns the
go-difflib unified diff of the renderings.  Neither library is part of
this repository; the spec's diff-engine contract (section 4.3) is that an
empty result signals no difference and the renderings are a stable,
faithful presentation of the inputs, so the composite is modelled as
empty exactly on equal inputs and a fixed non-empty text otherwise. -/
def diffString (a b : DiffInput) : String :=
  if a = b then "" else diffMark

/-- The single-string test from lines 152–154: the entry carries exactly
one value and a type assertion to `string` succeeds on it. -/
def singleString : List GoValue → Option String
  | [GoValue.strV x] => some x
  | _ => none

/-- The unconditional structural comparison of one entry pair (lines
164–167): report the mismatch and the rewrite hint, but do not stop. -/
def genericStep (e a : Snapshot) : List Report :=
  if diffString (.valList e.Values) (.valList a.Values) != "" then
    [.snapshotDiffers a.Name (diffString (.valList e.Values) (.valList a.Values)),
     .rewriteHint]
  else []

/-- The per-entry comparison loop of compare-mode `Verify` (lines
148–168), positional over the two entry lists.  When both sides carry a
single string and the raw strings differ, the loop reports and returns;
otherwise the structural comparison reports without returning. -/
def compareEntries : List Snapshot → List Snapshot → List Report
  | e :: es, a :: as =>
    (match singleString e.Values, singleString a.Values with
     | some x, some y =>
       if diffString (.strI x) (.strI y) != "" then
         [.snapshotDiffers a.Name (diffString (.strI x) (.strI y)),
          .rewriteHint]
       else genericStep e a ++ compareEntries es as
     | _, _ => genericStep e a ++ compareEntries es as)
  | _, _ => []

/-- `json.Marshal` of one snapshot entry: a JSON object with the struct's
fields in declaration order. -/
def encodeSnapshot (s : Snapshot) : Option Json :=
  (toJsonList s.Values).map
    (fun js => Json.obj [("Name", Json.str s.Name), ("Values", Json.arr js)])

/-- `encodeSnapshot` over a list of entries; fails if any entry fails. -/
def encodeSnapshotList : List Snapshot → Option (List Json)
  | [] => some []
  | s :: ss =>
    match encodeSnapshot s, encodeSnapshotList ss with
    | some j, some js => some (j :: js)
    | _, _ => none

/-- `json.MarshalIndent(s.snapshots, ...)` (line 107), as the parse tree
of the bytes it writes. -/
def encodeSnapshots (l : List Snapshot) : Option Json :=
  (encodeSnapshotList l).map Json.arr

/-- Decode the `Name` field of a persisted entry: an absent field or a
JSON null leaves the zero value; any other non-string is a type error. -/
def decodeName : Option Json → Option String
  | none => some ""
  | some (.str n) => some n
  | some .null => some ""
  | some _ => none

/-- Decode the `Values` field of a persisted entry: absent or null gives
the empty slice; any other non-array is a type error. -/
def decodeValues : Option Json → Option (List GoValue)
  | none => some []
  | some (.arr js) => some (ofJsonList js)
  | some .null => some []
  | some _ => none

/-- `json.Unmarshal` of one persisted entry into `*snapshot`.  A document
that is not an object is an error (a JSON null would decode to a nil
pointer whose later field access faults; it is modelled as a failure). -/
def decodeSnapshot : Json → Option Snapshot
  | .obj fields =>
    match decodeName (fields.lookup "Name"), decodeValues (fields.lookup "Values") with
    | some n, some vs => some ⟨n, vs⟩
    | _, _ => none
  | _ => none

/-- `decodeSnapshot` over the elements of the persisted array. -/
def decodeSnapshotList : List Json → Option (List Snapshot)
  | [] => some []
  | j :: js =>
    match decodeSnapshot j, decodeSnapshotList js with
    | some s, some ss => some (s :: ss)
    | _, _ => none

/-- `json.Unmarshal(bytes, &expected)` (line 128): the persisted document
must be an array of entries (null decodes to the empty slice). -/
def decodeSnapshots : Json → Option (List Snapshot)
  | .arr items => decodeSnapshotList items
  | .null => some []
  | _ => none

/-- The in-place normalization loop of `Snapshot` (lines 65–72).  Returns
the final contents of the caller's `values` slice — elements before the
first failure are overwritten with their round-tripped forms, the rest
untouched — and the first value whose round trip failed, if any. -/
def snapshotLoop : List GoValue → List GoValue × Option GoValue
  | [] => ([], none)
  | v :: vs =>
    match jsonRoundTrip v with
    | none => (v :: vs, some v)
    | some r =>
      let p := snapshotLoop vs
      (r :: p.1, p.2)

/-- The `Snapshot` method (lines 64–78).  On a round-trip failure it
reports the entry name and offending value and returns without appending;
otherwise it appends one entry built from the (mutated) slice.  The second
component is the final contents of the caller's argument slice. -/
def snapshotMethod (s : Snapshotter) (name : String) (values : List GoValue) :
    Snapshotter × List GoValue :=
  let p := snapshotLoop values
  match p.2 with
  | some v => (s.addReport (.roundtripError name v), p.1)
  | none => ({ s with snapshots := s.snapshots ++ [⟨name, p.1⟩] }, p.1)

/-- A sequence of `Snapshot` calls. -/
def runCalls (s : Snapshotter) : List (String × List GoValue) → Snapshotter
  | [] => s
  | c :: cs => runCalls (snapshotMethod s c.1 c.2).1 cs

/-- Rewrite-mode `Verify` (lines 89–115): an empty captured set deletes a
stale golden file, otherwise the captured set is marshalled and written. -/
def verifyRewrite (s : Snapshotter) (fs : FS) (name : String) :
    Snapshotter × FS :=
  if s.snapshots = [] then
    if (fs.read name).isNone then (s, fs)
    else if name ∈ fs.removeFail then (s.addReport (.removeFailed name), fs)
    else (s, fs.remove name)
  else if fs.mkdirFail then (s.addReport .mkdirError, fs)
  else
    match encodeSnapshots s.snapshots with
    | none => (s.addReport .marshalError, fs)
    | some content =>
      if name ∈ fs.writeFail then (s.addReport .writeError, fs)
      else (s, fs.write name content)

/-- The name-sequence check and entry loop of compare mode (lines
133–168). -/
def compareSets (s : Snapshotter) (fs : FS) (expected : List Snapshot) :
    Snapshotter × FS :=
  let actual := s.snapshots
  let actualNames := actual.map Snapshot.Name
  let expectedNames := expected.map Snapshot.Name
  if diffString (.strList expectedNames) (.strList actualNames) != "" then
    (s.addReport (.namesDiffer
        (diffString (.strList expectedNames) (.strList actualNames))), fs)
  else (s.addReports (compareEntries expected actual), fs)

/-- Compare-mode `Verify` (lines 116–169): a missing golden file with an
empty captured set is a silent success; otherwise read and decode the
file and compare. -/
def verifyCompare (s : Snapshotter) (fs : FS) (name : String) :
    Snapshotter × FS :=
  if (fs.read name).isNone && s.snapshots.isEmpty then (s, fs)
  else
    match fs.readFile name with
    | none => (s.addReport (.readError name), fs)
    | some content =>
      match decodeSnapshots content with
      | none => (s.addReport .unmarshalError, fs)
      | some expected => compareSets s fs expected

/-- The `Verify` method (lines 82–170): derive the golden path (computed
inline in the source, factored here as `goldenName`) and branch on the
process-wide `rewrite` flag. -/
def verify (rewriteMode : Bool) (s : Snapshotter) (fs : FS) :
    Snapshotter × FS :=
  let name := goldenName s.tName s.name
  if rewriteMode then verifyRewrite s fs name else verifyCompare s fs name

theorem diffString_eq_empty_iff (a b : DiffInput) :
    diffString a b = "" ↔ a = b := by
  have hm : diffMark ≠ "" := by decide
  unfold diffString
  by_cases h : a = b
  · simp [h]
  · simp [if_neg h, h, hm]

theorem diffString_self (a : DiffInput) : diffString a a = "" := by
  simp [diffString]

theorem diffString_bne (a b : DiffInput) :
    (diffString a b != "") = true ↔ a ≠ b := by
  rw [bne_iff_ne]
  exact not_congr (diffString_eq_empty_iff a b)

theorem genericStep_self (e : Snapshot) : genericStep e e = [] := by
  simp [genericStep, diffString_self]

theorem compareEntries_self (l : List Snapshot) : compareEntries l l = [] := by
  induction l with
  | nil => rfl
  | cons e es ih =>
    simp only [compareEntries]
    cases hss : singleString e.Values with
    | none => simp [genericStep_self, ih]
    | some x => simp [diffString_self, genericStep_self, ih]

theorem FS.read_write_self (fs : FS) (p : String) (j : Json) :
    (fs.write p j).read p = some j := by
  show ((p, j) :: fs.files).lookup p = some j
  exact List.lookup_cons_self

theorem FS.read_remove_self (fs : FS) (p : String) :
    (fs.remove p).read p = none := by
  simp only [FS.read, FS.remove]
  rw [List.lookup_eq_none_iff]
  intro q hq
  have h2 : q.1 ≠ p := by simpa [bne_iff_ne] using (List.mem_filter.mp hq).2
  simpa [bne_iff_ne] using h2.symm

theorem replaceCharList_comp (l : List Char) :
    replaceCharList ':' '-' (replaceCharList '/' '-' l) =
      l.map (fun c => if c = '/' ∨ c = ':' then '-' else c) := by
  induction l with
  | nil => rfl
  | cons x xs ih =>
    simp only [replaceCharList, List.map_cons]
    rw [ih]
    congr 1
    by_cases h1 : x = '/'
    · subst h1; decide
    · by_cases h2 : x = ':'
      · subst h2; decide
      · simp [h1, h2]

/-- Sanitization as the claim words it: one pointwise map replacing every
`/` and every `:` character with `-`. -/
def sanitizeSpec (s : String) : String :=
  ⟨s.data.map (fun c => if c = '/' ∨ c = ':' then '-' else c)⟩

theorem sanitize_eq_spec (s : String) : sanitize s = sanitizeSpec s :=
  congrArg String.mk (replaceCharList_comp s.data)

/-- The golden-file path as the claim words it: the fixed directory
`testdata` joined with the sanitized test identifier, then `_` plus the
sanitized discriminator exactly when the discriminator is non-empty, then
the fixed suffix. -/
def specGoldenPath (t d : String) : String :=
  "testdata/" ++ sanitizeSpec t ++
    (if d = "" then "" else "_" ++ sanitizeSpec d) ++ ".snapshots.json"

theorem testdata_append (x : String) :
    "testdata" ++ "/" ++ x = "testdata/" ++ x := by
  apply String.ext
  simp only [String.data_append]
  rw [show ("testdata".data ++ "/".data : List Char) = "testdata/".data from by decide]

theorem Snapshotter.addReports_nil (s : Snapshotter) : s.addReports [] = s := by
  cases s
  simp [Snapshotter.addReports]

theorem verify_rewrite_empty_absent (s : Snapshotter) (fs : FS)
    (hemp : s.snapshots = [])
    (hnone : fs.read (goldenName s.tName s.name) = none) :
    verify true s fs = (s, fs) := by
  show verifyRewrite s fs (goldenName s.tName s.name) = (s, fs)
  unfold verifyRewrite
  simp [hemp, hnone]

theorem verify_rewrite_empty_present (s : Snapshotter) (fs : FS) (j : Json)
    (hemp : s.snapshots = [])
    (hsome : fs.read (goldenName s.tName s.name) = some j)
    (hrm : goldenName s.tName s.name ∉ fs.removeFail) :
    verify true s fs = (s, fs.remove (goldenName s.tName s.name)) := by
  show verifyRewrite s fs (goldenName s.tName s.name) = _
  unfold verifyRewrite
  simp [hemp, hsome, hrm]

theorem verify_rewrite_empty_removefail (s : Snapshotter) (fs : FS) (j : Json)
    (hemp : s.snapshots = [])
    (hsome : fs.read (goldenName s.tName s.name) = some j)
    (hrm : goldenName s.tName s.name ∈ fs.removeFail) :
    verify true s fs =
      (s.addReport (.removeFailed (goldenName s.tName s.name)), fs) := by
  show verifyRewrite s fs (goldenName s.tName s.name) = _
  unfold verifyRewrite
  simp [hemp, hsome, hrm]

theorem verify_rewrite_write (s : Snapshotter) (fs : FS) (j : Json)
    (hne : s.snapshots ≠ [])
    (hmk : fs.mkdirFail = false)
    (henc : encodeSnapshots s.snapshots = some j)
    (hw : goldenName s.tName s.name ∉ fs.writeFail) :
    verify true s fs = (s, fs.write (goldenName s.tName s.name) j) := by
  show verifyRewrite s fs (goldenName s.tName s.name) = _
  unfold verifyRewrite
  simp [hne, hmk, henc, hw]

theorem verify_compare_absent (s : Snapshotter) (fs : FS)
    (hemp : s.snapshots = [])
    (hnone : fs.read (goldenName s.tName s.name) = none) :
    verify false s fs = (s, fs) := by
  show verifyCompare s fs (goldenName s.tName s.name) = (s, fs)
  unfold verifyCompare
  simp [hemp, hnone]

theorem verify_compare_eval (s : Snapshotter) (fs : FS) (c : Json)
    (expected : List Snapshot)
    (hread : fs.read (goldenName s.tName s.name) = some c)
    (hrf : goldenName s.tName s.name ∉ fs.readFail)
    (hdec : decodeSnapshots c = some expected) :
    verify false s fs = compareSets s fs expected := by
  show verifyCompare s fs (goldenName s.tName s.name) = _
  unfold verifyCompare
  simp [hread, FS.readFile, hrf, hdec]

theorem compareSets_names_differ (s : Snapshotter) (fs : FS)
    (expected : List Snapshot)
    (hnames : expected.map Snapshot.Name ≠ s.snapshots.map Snapshot.Name) :
    compareSets s fs expected =
      (s.addReport (.namesDiffer
        (diffString (.strList (expected.map Snapshot.Name))
          (.strList (s.snapshots.map Snapshot.Name)))), fs) := by
  unfold compareSets
  have : (DiffInput.strList (expected.map Snapshot.Name)) ≠
      (.strList (s.snapshots.map Snapshot.Name)) := by
    intro hc
    exact hnames (by injection hc)
  simp [(diffString_bne _ _).mpr this]

theorem compareSets_names_eq (s : Snapshotter) (fs : FS)
    (expected : List Snapshot)
    (hnames : expected.map Snapshot.Name = s.snapshots.map Snapshot.Name) :
    compareSets s fs expected =
      (s.addReports (compareEntries expected s.snapshots), fs) := by
  unfold compareSets
  simp [hnames, diffString_self]

theorem verify_compare_ok (s : Snapshotter) (fs : FS) (c : Json)
    (hread : fs.read (goldenName s.tName s.name) = some c)
    (hrf : goldenName s.tName s.name ∉ fs.readFail)
    (hdec : decodeSnapshots c = some s.snapshots) :
    verify false s fs = (s, fs) := by
  rw [verify_compare_eval s fs c s.snapshots hread hrf hdec,
    compareSets_names_eq s fs s.snapshots rfl, compareEntries_self,
    Snapshotter.addReports_nil]

theorem compareEntries_string_stop (x y : String) (e a : Snapshot)
    (es as : List Snapshot)
    (he : e.Values = [.strV x]) (ha : a.Values = [.strV y]) (hxy : x ≠ y) :
    compareEntries (e :: es) (a :: as) =
      [.snapshotDiffers a.Name (diffString (.strI x) (.strI y)), .rewriteHint] := by
  have hse : singleString e.Values = some x := by rw [he]; rfl
  have hsa : singleString a.Values = some y := by rw [ha]; rfl
  have hd : (diffString (.strI x) (.strI y) != "") = true :=
    (diffString_bne _ _).mpr (by simp [hxy])
  simp only [compareEntries, hse, hsa, hd, if_true]

theorem compareEntries_string_eq (x : String) (e a : Snapshot)
    (es as : List Snapshot)
    (he : e.Values = [.strV x]) (ha : a.Values = [.strV x]) :
    compareEntries (e :: es) (a :: as) = compareEntries es as := by
  have hse : singleString e.Values = some x := by rw [he]; rfl
  have hsa : singleString a.Values = some x := by rw [ha]; rfl
  have hg : genericStep e a = [] := by
    simp [genericStep, he, ha, diffString_self]
  simp [compareEntries, hse, hsa, diffString_self, hg]

theorem compareEntries_generic_cont (e a : Snapshot) (es as : List Snapshot)
    (hns : singleString e.Values = none ∨ singleString a.Values = none)
    (hne : e.Values ≠ a.Values) :
    compareEntries (e :: es) (a :: as) =
      Report.snapshotDiffers a.Name
          (diffString (.valList e.Values) (.valList a.Values)) ::
        Report.rewriteHint :: compareEntries es as := by
  have hd : (diffString (.valList e.Values) (.valList a.Values) != "") = true :=
    (diffString_bne _ _).mpr (by simp [hne])
  have hg : genericStep e a =
      [Report.snapshotDiffers a.Name
        (diffString (.valList e.Values) (.valList a.Values)), .rewriteHint] := by
    simp only [genericStep, hd, if_true]
  rcases hns with h | h
  · cases hsa : singleString a.Values <;> simp [compareEntries, h, hsa, hg]
  · cases hse : singleString e.Values <;> simp [compareEntries, h, hse, hg]

/-- Round-trip every element of a slice; `none` when any element fails.
This is the success condition of the loop in `Snapshot`. -/
def roundTripList : List GoValue → Option (List GoValue)
  | [] => some []
  | v :: vs =>
    match jsonRoundTrip v, roundTripList vs with
    | some w, some ws => some (w :: ws)
    | _, _ => none

theorem snapshotLoop_ok : ∀ (vs nvs : List GoValue),
    roundTripList vs = some nvs → snapshotLoop vs = (nvs, none) := by
  intro vs
  induction vs with
  | nil => intro nvs h; cases h; rfl
  | cons v vs ih =>
    intro nvs h
    cases h1 : jsonRoundTrip v with
    | none => simp [roundTripList, h1] at h
    | some w =>
      cases h2 : roundTripList vs with
      | none => simp [roundTripList, h1, h2] at h
      | some ws =>
        simp only [roundTripList, h1, h2] at h
        cases h
        simp [snapshotLoop, h1, ih ws h2]

theorem snapshotLoop_fail : ∀ (pre : List GoValue) (v : GoValue)
    (post npre : List GoValue),
    roundTripList pre = some npre → jsonRoundTrip v = none →
    snapshotLoop (pre ++ v :: post) = (npre ++ v :: post, some v) := by
  intro pre
  induction pre with
  | nil =>
    intro v post npre h hv
    cases h
    simp [snapshotLoop, hv]
  | cons u us ih =>
    intro v post npre h hv
    cases h1 : jsonRoundTrip u with
    | none => simp [roundTripList, h1] at h
    | some w =>
      cases h2 : roundTripList us with
      | none => simp [roundTripList, h1, h2] at h
      | some ws =>
        simp only [roundTripList, h1, h2] at h
        cases h
        rw [List.cons_append]
        simp only [snapshotLoop, h1]
        rw [ih v post ws h2 hv]
        simp

theorem snapshotMethod_append (s : Snapshotter) (nm : String)
    (values nvs : List GoValue) (h : roundTripList values = some nvs) :
    snapshotMethod s nm values =
      ({ s with snapshots := s.snapshots ++ [⟨nm, nvs⟩] }, nvs) := by
  unfold snapshotMethod
  simp [snapshotLoop_ok values nvs h]

theorem snapshotMethod_fail (s : Snapshotter) (nm : String)
    (pre : List GoValue) (v : GoValue) (post npre : List GoValue)
    (h : roundTripList pre = some npre) (hv : jsonRoundTrip v = none) :
    snapshotMethod s nm (pre ++ v :: post) =
      (s.addReport (.roundtripError nm v), npre ++ v :: post) := by
  unfold snapshotMethod
  simp [snapshotLoop_fail pre v post npre h hv]

theorem roundTripList_total : ∀ (vs : List GoValue),
    (∀ v ∈ vs, (jsonRoundTrip v).isSome) →
    ∃ ws, roundTripList vs = some ws := by
  intro vs
  induction vs with
  | nil => exact fun _ => ⟨[], rfl⟩
  | cons v vs ih =>
    intro h
    have hv := h v (by simp)
    cases h1 : jsonRoundTrip v with
    | none => rw [h1] at hv; simp at hv
    | some w =>
      rcases ih (fun x hx => h x (by simp [hx])) with ⟨ws, hws⟩
      exact ⟨w :: ws, by simp [roundTripList, h1, hws]⟩

theorem roundTripList_normal : ∀ (vs nvs : List GoValue),
    roundTripList vs = some nvs → ∀ w ∈ nvs, NormalVal w := by
  intro vs
  induction vs with
  | nil => intro nvs h; cases h; simp
  | cons v vs ih =>
    intro nvs h
    cases h1 : jsonRoundTrip v with
    | none => simp [roundTripList, h1] at h
    | some w0 =>
      cases h2 : roundTripList vs with
      | none => simp [roundTripList, h1, h2] at h
      | some ws =>
        simp only [roundTripList, h1, h2] at h
        cases h
        intro w hw
        rcases List.mem_cons.mp hw with rfl | hw
        · exact normal_of_roundTrip h1
        · exact ih ws h2 w hw

theorem runCalls_norm : ∀ (calls : List (String × List GoValue)) (s : Snapshotter),
    (∀ c ∈ calls, ∃ nvs, roundTripList c.2 = some nvs) →
    ∃ l, runCalls s calls = { s with snapshots := s.snapshots ++ l } ∧
      ∀ e ∈ l, ∀ v ∈ e.Values, NormalVal v := by
  intro calls
  induction calls with
  | nil =>
    intro s _
    exact ⟨[], by simp [runCalls], by simp⟩
  | cons c cs ih =>
    intro s h
    rcases h c (by simp) with ⟨nvs, hnvs⟩
    have hstep : (snapshotMethod s c.1 c.2).1 =
        { s with snapshots := s.snapshots ++ [⟨c.1, nvs⟩] } := by
      rw [snapshotMethod_append s c.1 c.2 nvs hnvs]
    rcases ih { s with snapshots := s.snapshots ++ [⟨c.1, nvs⟩] }
        (fun c' hc' => h c' (by simp [hc'])) with ⟨l', hrun, hnorm'⟩
    refine ⟨⟨c.1, nvs⟩ :: l', ?_, ?_⟩
    · show runCalls (snapshotMethod s c.1 c.2).1 cs = _
      rw [hstep, hrun]
      cases s
      simp
    · intro e he
      rcases List.mem_cons.mp he with rfl | he
      · exact roundTripList_normal c.2 nvs hnvs
      · exact hnorm' e he

theorem toJsonList_of_normal : ∀ (vs : List GoValue),
    (∀ v ∈ vs, NormalVal v) →
    ∃ js, toJsonList vs = some js ∧ ofJsonList js = vs := by
  intro vs
  induction vs with
  | nil => exact fun _ => ⟨[], rfl, rfl⟩
  | cons v vs ih =>
    intro h
    have hv : NormalVal v := h v (by simp)
    unfold NormalVal jsonRoundTrip at hv
    cases hj : toJson v with
    | none => rw [hj] at hv; simp at hv
    | some j =>
      rw [hj] at hv
      simp only [Option.map_some', Option.some.injEq] at hv
      rcases ih (fun x hx => h x (by simp [hx])) with ⟨js, hjs, hofs⟩
      exact ⟨j :: js, by simp [toJsonList, hj, hjs],
        by simp [ofJsonList, hv, hofs]⟩

theorem encode_decode_list : ∀ (l : List Snapshot),
    (∀ e ∈ l, ∀ v ∈ e.Values, NormalVal v) →
    ∃ js, encodeSnapshotList l = some js ∧ decodeSnapshotList js = some l := by
  intro l
  induction l with
  | nil => exact fun _ => ⟨[], rfl, rfl⟩
  | cons e es ih =>
    intro h
    rcases toJsonList_of_normal e.Values (h e (by simp)) with ⟨vjs, hvjs, hofs⟩
    rcases ih (fun x hx => h x (by simp [hx])) with ⟨js, hjs, hdec⟩
    refine ⟨Json.obj [("Name", .str e.Name), ("Values", .arr vjs)] :: js, ?_, ?_⟩
    · simp [encodeSnapshotList, encodeSnapshot, hvjs, hjs]
    · have hds : decodeSnapshot
          (Json.obj [("Name", .str e.Name), ("Values", .arr vjs)]) = some e := by
        show some ⟨e.Name, ofJsonList vjs⟩ = some e
        rw [hofs]
      simp [decodeSnapshotList, hds, hdec]

theorem encode_decode_normal (l : List Snapshot)
    (h : ∀ e ∈ l, ∀ v ∈ e.Values, NormalVal v) :
    ∃ j, encodeSnapshots l = some j ∧ decodeSnapshots j = some l := by
  rcases encode_decode_list l h with ⟨js, h1, h2⟩
  exact ⟨.arr js, by simp [encodeSnapshots, h1], by simp [decodeSnapshots, h2]⟩

/-- C8: normalization is idempotent.  For every value v on which the JSON
round trip succeeds, applying it to the result succeeds and yields an
equal value: normalize (normalize v) = normalize v. -/
theorem c8_roundtrip_idempotent (v w : GoValue)
    (h : jsonRoundTrip v = some w) : jsonRoundTrip w = some w :=
  normal_of_roundTrip h

/-- Witness for C8: a map with unsorted keys round-trips to its canonical
form, which the theorem shows is a fixed point. -/
theorem c8_witness :
    jsonRoundTrip (.mapV [("b", .numV 1), ("a", .strV "x")]) =
      some (.mapV [("a", .strV "x"), ("b", .numV 1)]) ∧
    jsonRoundTrip (.mapV [("a", .strV "x"), ("b", .numV 1)]) =
      some (.mapV [("a", .strV "x"), ("b", .numV 1)]) :=
  ⟨by decide,
   c8_roundtrip_idempotent (.mapV [("b", .numV 1), ("a", .strV "x")])
     (.mapV [("a", .strV "x"), ("b", .numV 1)]) (by decide)⟩

/-- C9: the golden-file path used by Verify equals the fixed directory
"testdata" joined with sanitize(t), followed by "_" ++ sanitize(d) exactly
when the discriminator d is non-empty, followed by the fixed suffix
".snapshots.json", where sanitize replaces every '/' and every ':'
character with '-'. -/
theorem c9_path_derivation (t d : String) :
    goldenName t d = specGoldenPath t d := by
  unfold goldenName specGoldenPath
  rw [testdata_append]
  simp only [sanitize_eq_spec, String.append_assoc]

/-- C2 counterexample: sanitization is not injective, so the two distinct
discriminators "a/b" and "a-b" for the same test identifier derive the
same golden filename, refuting the claim as stated. -/
theorem c2_counterexample :
    ("a/b" : String) ≠ "a-b" ∧ goldenName "T" "a/b" = goldenName "T" "a-b" :=
  ⟨by decide, by decide⟩

/-- C2 amended: the derived golden-file path is injective in the
sanitized discriminator — for every test identifier and any two
discriminators whose sanitized forms differ, the derived filenames
differ. -/
theorem c2_path_injective (t d1 d2 : String)
    (h : sanitize d1 ≠ sanitize d2) :
    goldenName t d1 ≠ goldenName t d2 := by
  have hu : ("_" : String).length = 1 := by decide
  have he : ("" : String).length = 0 := by decide
  intro heq
  unfold goldenName at heq
  by_cases h1 : d1 = ""
  · by_cases h2 : d2 = ""
    · exact h (by rw [h1, h2])
    · rw [if_pos h1, if_neg h2] at heq
      have hlen := congrArg String.length heq
      simp only [String.length_append, hu, he] at hlen
      omega
  · by_cases h2 : d2 = ""
    · rw [if_neg h1, if_pos h2] at heq
      have hlen := congrArg String.length heq
      simp only [String.length_append, hu, he] at hlen
      omega
    · rw [if_neg h1, if_neg h2] at heq
      have hdata := congrArg String.data heq
      simp only [String.data_append, List.append_assoc] at hdata
      apply h
      apply String.ext
      have h3 := List.append_cancel_left hdata
      have h4 := List.append_cancel_left h3
      have h5 := List.append_cancel_left h4
      have h6 := List.append_cancel_left h5
      exact List.append_cancel_right h6

/-- Witness for the amended C2 at concrete discriminators "a" and "b". -/
theorem c2_witness : goldenName "T" "a" ≠ goldenName "T" "b" :=
  c2_path_injective "T" "a" "b" (by decide)

/-- C5: Snapshot is all-or-nothing per call.  If normalization of any
value fails, an error naming the entry and the offending value is
reported and the in-memory snapshot set is unchanged — no entry, partial
or whole, is appended; if all values normalize, exactly one entry with
the normalized values is appended at the end of the set. -/
theorem c5_snapshot_all_or_nothing (s : Snapshotter) (nm : String) :
    (∀ (pre : List GoValue) (v : GoValue) (post npre : List GoValue),
        roundTripList pre = some npre → jsonRoundTrip v = none →
        (snapshotMethod s nm (pre ++ v :: post)).1 =
          s.addReport (.roundtripError nm v) ∧
        ((snapshotMethod s nm (pre ++ v :: post)).1).snapshots =
          s.snapshots) ∧
    (∀ (values nvs : List GoValue), roundTripList values = some nvs →
        (snapshotMethod s nm values).1 =
          { s with snapshots := s.snapshots ++ [⟨nm, nvs⟩] }) := by
  constructor
  · intro pre v post npre h hv
    rw [snapshotMethod_fail s nm pre v post npre h hv]
    exact ⟨rfl, rfl⟩
  · intro values nvs h
    rw [snapshotMethod_append s nm values nvs h]

/-- Witness for C5: one failing call (a func value in the middle) leaves
the set unchanged, one succeeding call appends exactly one entry. -/
theorem c5_witness :
    ((snapshotMethod ⟨"T", "", [], []⟩ "e"
        ([.numV 1] ++ .funcV :: [.boolV true])).1 =
      Snapshotter.addReport ⟨"T", "", [], []⟩ (.roundtripError "e" .funcV) ∧
     ((snapshotMethod ⟨"T", "", [], []⟩ "e"
        ([.numV 1] ++ .funcV :: [.boolV true])).1).snapshots = []) ∧
    (snapshotMethod ⟨"T", "", [], []⟩ "e" [.numV 1, .strV "a"]).1 =
      ⟨"T", "", [⟨"e", [.numV 1, .strV "a"]⟩], []⟩ :=
  ⟨(c5_snapshot_all_or_nothing ⟨"T", "", [], []⟩ "e").1
      [.numV 1] .funcV [.boolV true] [.numV 1] (by decide) (by decide),
   (c5_snapshot_all_or_nothing ⟨"T", "", [], []⟩ "e").2
      [.numV 1, .strV "a"] [.numV 1, .strV "a"] (by decide)⟩

/-- C10: Snapshot overwrites the caller's argument slice in place.  On
success every element is replaced by its normalized form; when
normalization fails at index i, the elements before i have already been
replaced, the rest are untouched, and no entry is appended. -/
theorem c10_inplace_mutation (s : Snapshotter) (nm : String) :
    (∀ (pre : List GoValue) (v : GoValue) (post npre : List GoValue),
        roundTripList pre = some npre → jsonRoundTrip v = none →
        (snapshotMethod s nm (pre ++ v :: post)).2 = npre ++ v :: post ∧
        ((snapshotMethod s nm (pre ++ v :: post)).1).snapshots =
          s.snapshots) ∧
    (∀ (values nvs : List GoValue), roundTripList values = some nvs →
        (snapshotMethod s nm values).2 = nvs) := by
  constructor
  · intro pre v post npre h hv
    rw [snapshotMethod_fail s nm pre v post npre h hv]
    exact ⟨rfl, rfl⟩
  · intro values nvs h
    rw [snapshotMethod_append s nm values nvs h]

/-- Witness for C10: with the failure at index 1, the element at index 0
is already normalized (the map's keys got canonically reordered) while
the elements from index 1 on are untouched. -/
theorem c10_witness :
    ((snapshotMethod ⟨"T", "", [], []⟩ "e"
        ([.mapV [("b", .numV 1), ("a", .numV 2)]] ++ .funcV :: [.numV 7])).2 =
      [.mapV [("a", .numV 2), ("b", .numV 1)]] ++ .funcV :: [.numV 7] ∧
     ((snapshotMethod ⟨"T", "", [], []⟩ "e"
        ([.mapV [("b", .numV 1), ("a", .numV 2)]] ++ .funcV :: [.numV 7])).1).snapshots = []) ∧
    (snapshotMethod ⟨"T", "", [], []⟩ "e" [.numV 3]).2 = [.numV 3] :=
  ⟨(c10_inplace_mutation ⟨"T", "", [], []⟩ "e").1
      [.mapV [("b", .numV 1), ("a", .numV 2)]] .funcV [.numV 7]
      [.mapV [("a", .numV 2), ("b", .numV 1)]] (by decide) (by decide),
   (c10_inplace_mutation ⟨"T", "", [], []⟩ "e").2 [.numV 3] [.numV 3] (by decide)⟩

/-- C4: in compare mode Verify checks the ordered entry-name sequences
first; whenever they differ, it reports a single diff of the two name
sequences (a structural mismatch) and returns without performing any
per-entry value comparison and without touching the filesystem. -/
theorem c4_structural_mismatch (s : Snapshotter) (fs : FS) (c : Json)
    (expected : List Snapshot)
    (hread : fs.read (goldenName s.tName s.name) = some c)
    (hrf : goldenName s.tName s.name ∉ fs.readFail)
    (hdec : decodeSnapshots c = some expected)
    (hnames : expected.map Snapshot.Name ≠ s.snapshots.map Snapshot.Name) :
    verify false s fs =
      (s.addReport (.namesDiffer
        (diffString (.strList (expected.map Snapshot.Name))
          (.strList (s.snapshots.map Snapshot.Name)))), fs) := by
  rw [verify_compare_eval s fs c expected hread hrf hdec,
    compareSets_names_differ s fs expected hnames]

/-- The golden file used by the C4 witness: entries named "b" then "a",
with values identical to the captured ones. -/
def c4gold : Json :=
  .arr [.obj [("Name", .str "b"), ("Values", .arr [])],
        .obj [("Name", .str "a"), ("Values", .arr [])]]

/-- The filesystem used by the C4 witness. -/
def c4fs : FS := ⟨[("testdata/T.snapshots.json", c4gold)], [], [], [], false⟩

/-- Witness for C4: captured names ["a","b"] against golden names
["b","a"] with identical values fail as a structural mismatch. -/
theorem c4_witness :
    verify false ⟨"T", "", [⟨"a", []⟩, ⟨"b", []⟩], []⟩ c4fs =
      (Snapshotter.addReport ⟨"T", "", [⟨"a", []⟩, ⟨"b", []⟩], []⟩
        (.namesDiffer (diffString (.strList ["b", "a"]) (.strList ["a", "b"]))),
       c4fs) :=
  c4_structural_mismatch ⟨"T", "", [⟨"a", []⟩, ⟨"b", []⟩], []⟩ c4fs c4gold
    [⟨"b", []⟩, ⟨"a", []⟩] (by decide) (by decide) (by decide) (by decide)

/-- C6: empty-capture behaviour of Verify.  With zero captured entries:
in rewrite mode an existing golden file is removed with no report (and a
failing removal is reported, not fatal), a missing file is a no-op; in
compare mode with no golden file, Verify succeeds silently with no report
and no filesystem change. -/
theorem c6_empty_capture :
    (∀ (s : Snapshotter) (fs : FS) (j : Json), s.snapshots = [] →
        fs.read (goldenName s.tName s.name) = some j →
        goldenName s.tName s.name ∉ fs.removeFail →
        verify true s fs = (s, fs.remove (goldenName s.tName s.name))) ∧
    (∀ (s : Snapshotter) (fs : FS) (j : Json), s.snapshots = [] →
        fs.read (goldenName s.tName s.name) = some j →
        goldenName s.tName s.name ∈ fs.removeFail →
        verify true s fs =
          (s.addReport (.removeFailed (goldenName s.tName s.name)), fs)) ∧
    (∀ (s : Snapshotter) (fs : FS), s.snapshots = [] →
        fs.read (goldenName s.tName s.name) = none →
        verify true s fs = (s, fs)) ∧
    (∀ (s : Snapshotter) (fs : FS), s.snapshots = [] →
        fs.read (goldenName s.tName s.name) = none →
        verify false s fs = (s, fs)) :=
  ⟨fun s fs j h1 h2 h3 => verify_rewrite_empty_present s fs j h1 h2 h3,
   fun s fs j h1 h2 h3 => verify_rewrite_empty_removefail s fs j h1 h2 h3,
   fun s fs h1 h2 => verify_rewrite_empty_absent s fs h1 h2,
   fun s fs h1 h2 => verify_compare_absent s fs h1 h2⟩

/-- The empty-capture Snapshotter used by the C6 witness. -/
def c6s : Snapshotter := ⟨"T", "", [], []⟩

/-- A filesystem with a golden file present, for the C6 witness. -/
def c6fsA : FS := ⟨[("testdata/T.snapshots.json", .arr [])], [], [], [], false⟩

/-- A filesystem where removing the golden file fails, for the C6 witness. -/
def c6fsB : FS :=
  ⟨[("testdata/T.snapshots.json", .arr [])], ["testdata/T.snapshots.json"],
   [], [], false⟩

/-- An empty filesystem, for the C6 witness. -/
def c6fsC : FS := ⟨[], [], [], [], false⟩

/-- Witness for C6 at concrete states: file present (removed), removal
fault (reported), file absent in rewrite and in compare (no-ops). -/
theorem c6_witness :
    verify true c6s c6fsA = (c6s, c6fsA.remove (goldenName "T" "")) ∧
    verify true c6s c6fsB =
      (c6s.addReport (.removeFailed (goldenName "T" "")), c6fsB) ∧
    verify true c6s c6fsC = (c6s, c6fsC) ∧
    verify false c6s c6fsC = (c6s, c6fsC) :=
  ⟨c6_empty_capture.1 c6s c6fsA (.arr []) rfl (by decide) (by decide),
   c6_empty_capture.2.1 c6s c6fsB (.arr []) rfl (by decide) (by decide),
   c6_empty_capture.2.2.1 c6s c6fsC rfl (by decide),
   c6_empty_capture.2.2.2 c6s c6fsC rfl (by decide)⟩

/-- C7: the string special case of compare mode.  For a positionally
matched pair of entries each carrying exactly one value that is a string
on both sides, the raw strings are diffed directly: differing strings
produce a reported mismatch (with the raw-string diff), identical strings
produce no report for that pair. -/
theorem c7_string_special_case :
    (∀ (x y : String) (e a : Snapshot) (es as : List Snapshot),
        e.Values = [.strV x] → a.Values = [.strV y] → x ≠ y →
        compareEntries (e :: es) (a :: as) =
          [.snapshotDiffers a.Name (diffString (.strI x) (.strI y)),
           .rewriteHint]) ∧
    (∀ (x : String) (e a : Snapshot) (es as : List Snapshot),
        e.Values = [.strV x] → a.Values = [.strV x] →
        compareEntries (e :: es) (a :: as) = compareEntries es as) :=
  ⟨fun x y e a es as he ha hxy =>
      compareEntries_string_stop x y e a es as he ha hxy,
   fun x e a es as he ha => compareEntries_string_eq x e a es as he ha⟩

/-- Witness for C7: "u" against "v" is reported, "u" against "u" leaves
no report for the pair. -/
theorem c7_witness :
    compareEntries [⟨"s", [.strV "u"]⟩] [⟨"s", [.strV "v"]⟩] =
      [.snapshotDiffers "s" (diffString (.strI "u") (.strI "v")),
       .rewriteHint] ∧
    compareEntries [⟨"s", [.strV "u"]⟩] [⟨"t", [.strV "u"]⟩] =
      compareEntries [] [] :=
  ⟨c7_string_special_case.1 "u" "v" ⟨"s", [.strV "u"]⟩ ⟨"s", [.strV "v"]⟩
      [] [] rfl rfl (by decide),
   c7_string_special_case.2 "u" ⟨"s", [.strV "u"]⟩ ⟨"t", [.strV "u"]⟩
      [] [] rfl rfl⟩

/-- The golden file of the C1 counterexample: entries "e1" and "e2" whose
(numeric) values both differ from the captured ones. -/
def c1gold : Json :=
  .arr [.obj [("Name", .str "e1"), ("Values", .arr [.num 2])],
        .obj [("Name", .str "e2"), ("Values", .arr [.num 4])]]

/-- The captured state of the C1 counterexample. -/
def c1snap : Snapshotter := ⟨"T", "", [⟨"e1", [.numV 1]⟩, ⟨"e2", [.numV 3]⟩], []⟩

/-- The filesystem of the C1 counterexample. -/
def c1fs : FS := ⟨[("testdata/T.snapshots.json", c1gold)], [], [], [], false⟩

/-- C1 counterexample: two entries whose values mismatch outside the
single-string special case.  Both positions produce a non-empty diff and
compare-mode Verify reports BOTH of them (four reports, the second pair
for "e2"), refuting the claim that no later entry is evaluated or
reported. -/
theorem c1_counterexample :
    decodeSnapshots c1gold = some [⟨"e1", [.numV 2]⟩, ⟨"e2", [.numV 4]⟩] ∧
    c1snap.snapshots.map Snapshot.Name = ["e1", "e2"] ∧
    diffString (.valList [.numV 2]) (.valList [.numV 1]) ≠ "" ∧
    diffString (.valList [.numV 4]) (.valList [.numV 3]) ≠ "" ∧
    (verify false c1snap c1fs).1.reports =
      [.snapshotDiffers "e1" diffMark, .rewriteHint,
       .snapshotDiffers "e2" diffMark, .rewriteHint] := by
  exact ⟨by decide, by decide, by decide, by decide, by decide⟩

/-- C1 corrected: fail-fast holds exactly through the single-string
special case.  When the first mismatching pair carries a single string on
both sides, the entry loop reports that one failure with the rewrite hint
and stops, evaluating no later entry; a mismatch outside that special
case is reported with the hint and the loop continues with the remaining
entries. -/
theorem c1_failfast_amended :
    (∀ (x y : String) (e a : Snapshot) (es as : List Snapshot),
        e.Values = [.strV x] → a.Values = [.strV y] → x ≠ y →
        compareEntries (e :: es) (a :: as) =
          [.snapshotDiffers a.Name (diffString (.strI x) (.strI y)),
           .rewriteHint]) ∧
    (∀ (e a : Snapshot) (es as : List Snapshot),
        (singleString e.Values = none ∨ singleString a.Values = none) →
        e.Values ≠ a.Values →
        compareEntries (e :: es) (a :: as) =
          Report.snapshotDiffers a.Name
              (diffString (.valList e.Values) (.valList a.Values)) ::
            Report.rewriteHint :: compareEntries es as) :=
  ⟨fun x y e a es as he ha hxy =>
      compareEntries_string_stop x y e a es as he ha hxy,
   fun e a es as hns hne => compareEntries_generic_cont e a es as hns hne⟩

/-- Witness for the amended C1: a first-position string mismatch stops
the loop before a later numeric mismatch; a numeric mismatch alone is
reported and the loop continues. -/
theorem c1_witness :
    compareEntries [⟨"p", [.strV "u"]⟩, ⟨"q", [.numV 9]⟩]
        [⟨"p", [.strV "v"]⟩, ⟨"q", [.numV 8]⟩] =
      [.snapshotDiffers "p" (diffString (.strI "u") (.strI "v")),
       .rewriteHint] ∧
    compareEntries [⟨"q", [.numV 9]⟩] [⟨"q", [.numV 8]⟩] =
      Report.snapshotDiffers "q"
          (diffString (.valList [.numV 9]) (.valList [.numV 8])) ::
        Report.rewriteHint :: compareEntries [] [] :=
  ⟨c1_failfast_amended.1 "u" "v" ⟨"p", [.strV "u"]⟩ ⟨"p", [.strV "v"]⟩
      [⟨"q", [.numV 9]⟩] [⟨"q", [.numV 8]⟩] rfl rfl (by decide),
   c1_failfast_amended.2 ⟨"q", [.numV 9]⟩ ⟨"q", [.numV 8]⟩ [] []
      (Or.inl rfl) (by decide)⟩

/-- C3: rewrite-then-compare is a fixed point.  Performing any sequence
of Snapshot calls whose values all normalize, then Verify in rewrite mode
(which reports nothing), then the identical calls on a fresh Snapshotter
for the same test identifier and discriminator followed by Verify in
compare mode, reports no error.  The filesystem hypotheses say no I/O
fault is injected at the derived path. -/
theorem c3_rewrite_compare_fixed_point (t d : String)
    (calls : List (String × List GoValue)) (fs : FS)
    (hnorm : ∀ c ∈ calls, ∀ v ∈ c.2, (jsonRoundTrip v).isSome)
    (hmk : fs.mkdirFail = false)
    (hw : goldenName t d ∉ fs.writeFail)
    (hr : goldenName t d ∉ fs.readFail)
    (hrm : goldenName t d ∉ fs.removeFail) :
    ((verify true (runCalls ⟨t, d, [], []⟩ calls) fs).1).reports = [] ∧
    ((verify false (runCalls ⟨t, d, [], []⟩ calls)
        ((verify true (runCalls ⟨t, d, [], []⟩ calls) fs).2)).1).reports = [] := by
  have hcalls : ∀ c ∈ calls, ∃ nvs, roundTripList c.2 = some nvs :=
    fun c hc => roundTripList_total c.2 (hnorm c hc)
  rcases runCalls_norm calls ⟨t, d, [], []⟩ hcalls with ⟨l, hrun, hnl⟩
  have hs1 : runCalls ⟨t, d, [], []⟩ calls = ⟨t, d, l, []⟩ := by
    rw [hrun]
    rfl
  rw [hs1]
  by_cases hl : l = []
  · subst hl
    by_cases hex : fs.read (goldenName t d) = none
    · have h1 : verify true (⟨t, d, [], []⟩ : Snapshotter) fs =
          (⟨t, d, [], []⟩, fs) :=
        verify_rewrite_empty_absent _ fs rfl hex
      constructor
      · rw [h1]
      · have h2 : (verify true (⟨t, d, [], []⟩ : Snapshotter) fs).2 = fs := by
          rw [h1]
        rw [h2, verify_compare_absent _ fs rfl hex]
    · obtain ⟨j, hj⟩ : ∃ j, fs.read (goldenName t d) = some j := by
        cases hje : fs.read (goldenName t d) with
        | none => exact absurd hje hex
        | some j => exact ⟨j, rfl⟩
      have h1 := verify_rewrite_empty_present (⟨t, d, [], []⟩ : Snapshotter)
        fs j rfl hj hrm
      constructor
      · rw [h1]
      · have h2 : (verify true (⟨t, d, [], []⟩ : Snapshotter) fs).2 =
            fs.remove (goldenName t d) := by rw [h1]
        rw [h2, verify_compare_absent _ _ rfl (FS.read_remove_self fs _)]
  · rcases encode_decode_normal l hnl with ⟨j, henc, hdec⟩
    have h1 := verify_rewrite_write (⟨t, d, l, []⟩ : Snapshotter) fs j hl hmk henc hw
    constructor
    · rw [h1]
    · have h2 : (verify true (⟨t, d, l, []⟩ : Snapshotter) fs).2 =
          fs.write (goldenName t d) j := by rw [h1]
      rw [h2, verify_compare_ok (⟨t, d, l, []⟩ : Snapshotter)
        (fs.write (goldenName t d) j) j (FS.read_write_self fs _ j) hr hdec]

/-- Witness for C3: one capture of the integer 1, rewritten then
compared on an initially empty filesystem, reports nothing. -/
theorem c3_witness :
    ((verify true (runCalls ⟨"T", "", [], []⟩ [("a", [.numV 1])])
        ⟨[], [], [], [], false⟩).1).reports = [] ∧
    ((verify false (runCalls ⟨"T", "", [], []⟩ [("a", [.numV 1])])
        ((verify true (runCalls ⟨"T", "", [], []⟩ [("a", [.numV 1])])
          ⟨[], [], [], [], false⟩).2)).1).reports = [] :=
  c3_rewrite_compare_fixed_point "T" "" [("a", [.numV 1])]
    ⟨[], [], [], [], false⟩ (by decide) rfl (by decide) (by decide) (by decide)
